import Mathlib

/-!
Shallow embedding of the signal-to-portfolio backtesting core of the
repository (src/backtesting/engine.py and src/backtesting/strategies.py).

Modelling conventions:
* pandas float64 series are embedded as `List ℚ` when every entry is a
  defined number, and as `List (Option ℚ)` when entries may be NaN
  (`none` = NaN).  Exact rational arithmetic stands in for float64; every
  claim checked here concerns exact identities, orderings, zero/NaN
  propagation or control flow, none of which depend on rounding.
* `pd.Series.diff()` yields NaN at index 0; `rolling(w).mean()` with the
  default `min_periods = w` yields NaN until a full window of non-NaN
  observations is available (these embeddings assume `1 ≤ w`; pandas
  rejects `w ≤ 0` with a ValueError inside `rolling`).
* pandas comparisons against NaN are False, and `series != 0` is True at
  NaN entries; both are modelled explicitly where they occur.
-/

/-- `pd.Series.diff()` on a fully defined series: NaN at index 0, else
successive differences. Helper carrying the previous value. -/
def diffAux : ℚ → List ℚ → List (Option ℚ)
  | _, [] => []
  | prev, y :: ys => some (y - prev) :: diffAux y ys

/-- `pd.Series.diff()` on a fully defined series. -/
def seriesDiff : List ℚ → List (Option ℚ)
  | [] => []
  | x :: xs => none :: diffAux x xs

/-- `rolling(window=w).mean()` over a fully defined series
(default `min_periods = w`): defined from index `w-1` on. Assumes `1 ≤ w`. -/
def rollingMean (w : Nat) (xs : List ℚ) : List (Option ℚ) :=
  (List.range xs.length).map fun i =>
    if w ≤ i + 1 then some (((xs.drop (i + 1 - w)).take w).sum / w)
    else none

/-- `delta.where(delta > 0, 0)` applied entrywise: keep positive deltas,
replace everything else — including the NaN at index 0, since `NaN > 0`
is False in pandas — by 0. From `RSIStrategy.calculate_rsi`. -/
def gainPart (d : Option ℚ) : ℚ :=
  match d with
  | none => 0
  | some x => if 0 < x then x else 0

/-- `(-delta.where(delta < 0, 0))` applied entrywise: magnitude of negative
deltas, 0 elsewhere (NaN coerced to 0 exactly as in `gainPart`). -/
def lossPart (d : Option ℚ) : ℚ :=
  match d with
  | none => 0
  | some x => if x < 0 then -x else 0

/-- The rolling average-gain series of `RSIStrategy.calculate_rsi`. -/
def gainAvg (w : Nat) (closes : List ℚ) : List (Option ℚ) :=
  rollingMean w ((seriesDiff closes).map gainPart)

/-- The rolling average-loss series of `RSIStrategy.calculate_rsi`. -/
def lossAvg (w : Nat) (closes : List ℚ) : List (Option ℚ) :=
  rollingMean w ((seriesDiff closes).map lossPart)

/-- `loss.replace(0, np.nan)` applied entrywise. -/
def replaceZeroNan (x : Option ℚ) : Option ℚ :=
  match x with
  | none => none
  | some v => if v = 0 then none else some v

/-- Entrywise division with NaN propagation (`gain / loss` after the zero
replacement; the divisor is never a defined 0 there, so the float-division
special values inf/NaN for a 0 divisor cannot arise). -/
def optDiv (a b : Option ℚ) : Option ℚ :=
  match a, b with
  | some x, some y => some (x / y)
  | _, _ => none

/-- `rs = rs.fillna(float('inf')); rsi = 100 - (100 / (1 + rs))`: a NaN
ratio becomes `+inf`, and `100 - 100/(1 + inf) = 100` exactly in float
arithmetic; a defined ratio `r` gives `100 - 100/(1+r)`. -/
def rsiOfRs (rs : Option ℚ) : ℚ :=
  match rs with
  | none => 100
  | some r => 100 - 100 / (1 + r)

/-- `RSIStrategy.calculate_rsi`: the full RSI series. Note that after
`fillna(inf)` every entry is a defined number. -/
def calculate_rsi (w : Nat) (closes : List ℚ) : List ℚ :=
  ((gainAvg w closes).zip (lossAvg w closes)).map fun gl =>
    rsiOfRs (optDiv gl.1 (replaceZeroNan gl.2))

/-- One row of `RSIStrategy.generate_signals`: `signal = 0`, then 1 where
`rsi < oversold`, then -1 where `rsi > overbought`; the later write wins
where both conditions hold. -/
def rsiSignalRow (oversold overbought r : ℚ) : ℚ :=
  if overbought < r then -1 else if r < oversold then 1 else 0

/-- The signal column of `RSIStrategy.generate_signals`. -/
def rsiSignals (w : Nat) (oversold overbought : ℚ) (closes : List ℚ) : List ℚ :=
  (calculate_rsi w closes).map (rsiSignalRow oversold overbought)

/-- The position column: `df['position'] = df['signal'].diff()`. -/
def rsiPositions (w : Nat) (oversold overbought : ℚ) (closes : List ℚ) :
    List (Option ℚ) :=
  seriesDiff (rsiSignals w oversold overbought closes)

/-- One row of `SMAStrategy.generate_signals`'s signal column: 1 where
`sma_short > sma_long`, -1 where `sma_short < sma_long`, else 0; pandas
comparisons involving a NaN average are False, leaving the initial 0. -/
def smaSignalRow (s l : Option ℚ) : ℚ :=
  match s, l with
  | some a, some b => if b < a then 1 else if a < b then -1 else 0
  | _, _ => 0

/-- The signal column of `SMAStrategy.generate_signals`. -/
def smaSignals (shortW longW : Nat) (closes : List ℚ) : List ℚ :=
  ((rollingMean shortW closes).zip (rollingMean longW closes)).map fun p =>
    smaSignalRow p.1 p.2

/-- Portfolio loop state of `BacktestEngine._calculate_portfolio`:
`position` (0 = no position, 1 = long), `shares`, `cash`. -/
structure PortState where
  position : Nat
  shares : ℚ
  cash : ℚ
deriving Repr, DecidableEq

/-- The three columns recorded per step by `_calculate_portfolio`. -/
structure PortRow where
  holdings : ℚ
  cash : ℚ
  portfolio_value : ℚ
deriving Repr, DecidableEq

/-- One iteration of the `_calculate_portfolio` loop at a step with
position-change `pos` (None = NaN) and close price `close`: the NaN
branch marks to market and continues; otherwise buy when `pos > 0` and
flat, else sell when `pos < 0` and long, else leave the state unchanged;
in every non-NaN case the three columns are then recorded from the
(possibly updated) state. Rational division stands in for float division
(`shares = cash / close`); for `close = 0` numpy returns inf with a
warning rather than raising, so control flow is unaffected. -/
def portStep (s : PortState) (pos : Option ℚ) (close : ℚ) :
    PortState × PortRow :=
  match pos with
  | none => (s, ⟨s.shares * close, s.cash, s.cash + s.shares * close⟩)
  | some p =>
    let s2 : PortState :=
      if 0 < p ∧ s.position = 0 then ⟨1, s.cash / close, 0⟩
      else if p < 0 ∧ s.position = 1 then ⟨0, 0, s.shares * close⟩
      else s
    (s2, ⟨s2.shares * close, s2.cash, s2.cash + s2.shares * close⟩)

/-- The `_calculate_portfolio` loop over (position-change, close) rows,
threading the state left to right and emitting the state and recorded
row at each step. -/
def portfolioAux (s : PortState) : List (Option ℚ × ℚ) → List (PortState × PortRow)
  | [] => []
  | (p, c) :: rest =>
    let r := portStep s p c
    r :: portfolioAux r.1 rest

/-- `BacktestEngine._calculate_portfolio` with initial capital `cap`:
starts flat with `shares = 0`, `cash = cap`. -/
def portfolioRun (cap : ℚ) (rows : List (Option ℚ × ℚ)) :
    List (PortState × PortRow) :=
  portfolioAux ⟨0, 0, cap⟩ rows

/-- The portfolio-value column produced by a run. -/
def portfolioValues (cap : ℚ) (rows : List (Option ℚ × ℚ)) : List ℚ :=
  (portfolioRun cap rows).map fun x => x.2.portfolio_value

/-- `pct_change()` helper carrying the previous value. -/
def pctChangeAux : ℚ → List ℚ → List (Option ℚ)
  | _, [] => []
  | prev, y :: ys => some ((y - prev) / prev) :: pctChangeAux y ys

/-- `df['portfolio_value'].pct_change()`: NaN at index 0, then step-to-step
relative change. (A zero previous value would give a float infinity; the
portfolio values of any run considered here are nonzero.) -/
def pctChange : List ℚ → List (Option ℚ)
  | [] => []
  | x :: xs => none :: pctChangeAux x xs

/-- The defined (non-NaN) entries of a series, as pandas statistics see
them (NaN observations are skipped). -/
def definedVals (xs : List (Option ℚ)) : List ℚ :=
  xs.filterMap id

/-- `Series.mean()`: NaN when there is no defined observation. -/
def seriesMean (xs : List (Option ℚ)) : Option ℚ :=
  let v := definedVals xs
  if v.length = 0 then none else some (v.sum / v.length)

/-- `Series.var()` with the pandas default `ddof = 1`: NaN with fewer than
two defined observations. `Series.std()` is its square root, so std is
NaN exactly when this is `none` and zero exactly when this is `some 0`. -/
def seriesVar (xs : List (Option ℚ)) : Option ℚ :=
  let v := definedVals xs
  if v.length < 2 then none
  else some ((v.map fun x => (x - v.sum / v.length) ^ 2).sum / (v.length - 1))

/-- The guard `df['daily_return'].std() != 0` of `_calculate_metrics`:
in Python `NaN != 0` is True, so an undefined std passes the guard. -/
def stdNeZeroTest (xs : List (Option ℚ)) : Bool :=
  match seriesVar xs with
  | none => true
  | some v => v ≠ 0

/-- The signed square of the reported
`sharpe_ratio = mean/std * sqrt(252)` of `_calculate_metrics`, over the
daily-return series of a portfolio-value list: the reported float is the
signed square root of this rational, so it is 0 / NaN exactly when this
is `some 0` / `none`. When the guard fails the code reports the literal
0, embedded as `some 0`; when the guard passes but mean or std is NaN
the float arithmetic propagates NaN, embedded as `none`. -/
def sharpeSgnSq (pv : List ℚ) : Option ℚ :=
  let dr := pctChange pv
  if stdNeZeroTest dr then
    match seriesMean dr, seriesVar dr with
    | some m, some v => some (if m < 0 then -(m ^ 2 * 252 / v) else m ^ 2 * 252 / v)
    | _, _ => none
  else some 0

/-- The magnitude of one position-change entry as seen by
`df['position'].abs()`: a NaN entry contributes 0 to the pandas sum
(`sum` skips NaN). -/
def optAbs (p : Option ℚ) : ℚ :=
  match p with
  | none => 0
  | some x => |x|

/-- `df['position'].abs().sum()` — pandas `sum` skips NaN entries. -/
def absSum (ps : List (Option ℚ)) : ℚ :=
  (ps.map optAbs).sum

/-- `num_trades = int(df['position'].abs().sum() / 2)`: Python `int()`
truncates toward zero, which is the floor of the non-negative sum. -/
def numTrades (ps : List (Option ℚ)) : Nat :=
  (absSum ps / 2).floor.toNat

/-- The close prices of the rows selected by `df[df['position'] != 0]`:
pandas `!= 0` is True at NaN entries, so the NaN rows are KEPT. -/
def tradeCloses (rows : List (Option ℚ × ℚ)) : List ℚ :=
  (rows.filter fun r =>
    match r.1 with
    | none => true
    | some x => x ≠ 0).map fun r => r.2

/-- The win-counting loop of `_calculate_metrics`: rows paired as
(0,1), (2,3), …; a pair wins when the exit close strictly exceeds the
entry close; a trailing unmatched row is skipped. -/
def countWins : List ℚ → Nat
  | e :: x :: rest => (if e < x then 1 else 0) + countWins rest
  | _ => 0

/-- `win_rate` of `_calculate_metrics`:
`wins / (num_trades / 2) * 100` when `num_trades > 0` (the inner division
is Python float division), else 0. -/
def winRate (ps : List (Option ℚ)) (closes : List ℚ) : ℚ :=
  let nt := numTrades ps
  if 0 < nt then
    ((countWins (tradeCloses (ps.zip closes)) : ℚ) / ((nt : ℚ) / 2)) * 100
  else 0

/-- `total_return = (pv.iloc[-1] - initial_capital) / initial_capital * 100`. -/
def totalReturn (cap : ℚ) (pv : List ℚ) : ℚ :=
  (pv.getLastD 0 - cap) / cap * 100

/-- Spec-side position state for the refinement statement of the
transition rule (§4.3): `FLAT` or `LONG`. -/
inductive SpecPos where
  | FLAT : SpecPos
  | LONG : SpecPos
deriving Repr, DecidableEq

/-- Spec-side portfolio state, phrased with the spec's enum. -/
structure SpecState where
  pos : SpecPos
  shares : ℚ
  cash : ℚ
deriving Repr, DecidableEq

/-- The transition rule exactly as the specification words it: if the
position-change at `t` is undefined, carry the state forward and only
recompute holdings and portfolio value; else if position-change > 0 and
the state is FLAT, set `shares = cash / close`, `cash = 0`, move to LONG;
else if position-change < 0 and the state is LONG, set
`cash = shares * close`, `shares = 0`, move to FLAT; in every other case
leave shares, cash and position unchanged; afterwards always record
`holdings = shares * close`, `cash`, `portfolio_value = cash + holdings`. -/
def specStep (s : SpecState) (pc : Option ℚ) (close : ℚ) :
    SpecState × PortRow :=
  match pc with
  | none => (s, ⟨s.shares * close, s.cash, s.cash + s.shares * close⟩)
  | some v =>
    let s2 : SpecState :=
      if 0 < v ∧ s.pos = SpecPos.FLAT then ⟨SpecPos.LONG, s.cash / close, 0⟩
      else if v < 0 ∧ s.pos = SpecPos.LONG then ⟨SpecPos.FLAT, 0, s.shares * close⟩
      else s
    (s2, ⟨s2.shares * close, s2.cash, s2.cash + s2.shares * close⟩)

/-- Spec-side run: fold `specStep` from the FLAT all-cash initial state. -/
def specRunAux (s : SpecState) : List (Option ℚ × ℚ) → List (SpecState × PortRow)
  | [] => []
  | (p, c) :: rest =>
    let r := specStep s p c
    r :: specRunAux r.1 rest

/-- Spec-side simulation from initial capital `cap`. -/
def specRun (cap : ℚ) (rows : List (Option ℚ × ℚ)) : List (SpecState × PortRow) :=
  specRunAux ⟨SpecPos.FLAT, 0, cap⟩ rows

/-- Correspondence between the code's integer position flag and the
spec's enum: 0 is FLAT, anything else (the code only ever writes 1) is
LONG. -/
def toSpecState (s : PortState) : SpecState :=
  ⟨if s.position = 0 then SpecPos.FLAT else SpecPos.LONG, s.shares, s.cash⟩

/-- `RSIStrategy.__init__` stores its parameters; the source performs no
validation of window or thresholds. -/
structure RSIStrategy where
  window : Nat
  oversold : ℚ
  overbought : ℚ
deriving Repr, DecidableEq

/-- `RSIStrategy(window, oversold, overbought)`: construction always
succeeds (no checks in the source constructor). -/
def mkRSIStrategy (window : Nat) (oversold overbought : ℚ) : RSIStrategy :=
  ⟨window, oversold, overbought⟩

/-- `SMAStrategy.__init__` likewise stores its windows unchecked. -/
structure SMAStrategy where
  short_window : Nat
  long_window : Nat
deriving Repr, DecidableEq

/-- `SMAStrategy(short_window, long_window)`: construction always
succeeds (no checks in the source constructor). -/
def mkSMAStrategy (short_window long_window : Nat) : SMAStrategy :=
  ⟨short_window, long_window⟩

/-- The rows (position-change, close) an RSI backtest feeds the engine. -/
def rsiEngineRows (cfg : RSIStrategy) (closes : List ℚ) : List (Option ℚ × ℚ) :=
  (rsiPositions cfg.window cfg.oversold cfg.overbought closes).zip closes

/-- The per-step portfolio output of `BacktestEngine.run` with an
`RSIStrategy`: signals, positions, then the portfolio loop. -/
def rsiBacktestRows (cfg : RSIStrategy) (cap : ℚ) (closes : List ℚ) :
    List (PortState × PortRow) :=
  portfolioRun cap (rsiEngineRows cfg closes)

/-- The summary record a completed RSI backtest returns (the metrics
fields settled elsewhere in this file — sharpe, drawdown — are derived
from the same `portfolio_value` column). -/
structure BacktestSummary where
  final_capital : ℚ
  total_return : ℚ
  num_trades : Nat
  win_rate : ℚ
deriving Repr, DecidableEq

/-- `BacktestEngine.run` + `_calculate_metrics` for an `RSIStrategy`,
restricted to the summary fields above. It is a total function: no
validation or error path exists anywhere on the way to the result. -/
def runRsiBacktest (cap : ℚ) (cfg : RSIStrategy) (closes : List ℚ) :
    BacktestSummary :=
  let ps := rsiPositions cfg.window cfg.oversold cfg.overbought closes
  let pv := portfolioValues cap (ps.zip closes)
  ⟨pv.getLastD 0, totalReturn cap pv, numTrades ps, winRate ps closes⟩

/-- Column labels of the DataFrames flowing through a backtest run. -/
inductive ColName where
  | date : ColName
  | close : ColName
  | sma_short : ColName
  | sma_long : ColName
  | signal : ColName
  | position : ColName
  | holdings : ColName
  | cash : ColName
  | portfolio_value : ColName
  | daily_return : ColName
deriving Repr, DecidableEq, BEq

/-- A DataFrame: named float64 columns (entries may be NaN). -/
structure Frame where
  cols : List (ColName × List (Option ℚ))
deriving Repr, DecidableEq

/-- Column assignment `df[n] = v`: replace the column when it exists,
append it otherwise (pandas keeps the original column order). -/
def setColAux (n : ColName) (v : List (Option ℚ)) :
    List (ColName × List (Option ℚ)) → List (ColName × List (Option ℚ))
  | [] => [(n, v)]
  | (m, w) :: rest =>
    if m = n then (n, v) :: rest else (m, w) :: setColAux n v rest

/-- `df[n] = v` on a frame value. -/
def Frame.setCol (f : Frame) (n : ColName) (v : List (Option ℚ)) : Frame :=
  ⟨setColAux n v f.cols⟩

/-- `df[n]` (empty when the column is absent). -/
def Frame.getCol (f : Frame) (n : ColName) : List (Option ℚ) :=
  match f.cols.find? fun p => p.1 == n with
  | some p => p.2
  | none => []

/-- The Python object heap restricted to DataFrames: objects addressed by
allocation index. `data.copy()` allocates a fresh object; in-place column
writes mutate one addressed object. -/
abbrev Heap : Type := List Frame

/-- Allocate a fresh frame (`.copy()` target), returning its address. -/
def heapAlloc (h : Heap) (f : Frame) : Heap × Nat :=
  (List.append h [f], h.length)

/-- Mutate the frame at address `r` in place. -/
def heapWrite (h : Heap) (r : Nat) (f : Frame) : Heap :=
  List.set h r f

/-- Read the frame at address `r`. -/
def heapRead (h : Heap) (r : Nat) : Frame :=
  List.getD h r ⟨[]⟩

/-- `rolling(w).mean()` over a possibly-NaN column: with the default
`min_periods = w`, defined exactly when the window is full and every
observation in it is defined. -/
def rollingMeanOpt (w : Nat) (xs : List (Option ℚ)) : List (Option ℚ) :=
  (List.range xs.length).map fun i =>
    if w ≤ i + 1 then
      let win := (xs.drop (i + 1 - w)).take w
      if win.all fun o => o.isSome then some ((win.filterMap id).sum / w)
      else none
    else none

/-- `Series.diff()` over a possibly-NaN column: NaN at index 0 and
wherever either operand is NaN. -/
def seriesDiffOptAux : Option ℚ → List (Option ℚ) → List (Option ℚ)
  | _, [] => []
  | prev, y :: ys =>
    (match prev, y with
     | some a, some b => some (b - a)
     | _, _ => none) :: seriesDiffOptAux y ys

/-- `Series.diff()` over a possibly-NaN column. -/
def seriesDiffOpt : List (Option ℚ) → List (Option ℚ)
  | [] => []
  | x :: xs => none :: seriesDiffOptAux x xs

/-- `pct_change()` over a possibly-NaN column. -/
def pctChangeOptAux : Option ℚ → List (Option ℚ) → List (Option ℚ)
  | _, [] => []
  | prev, y :: ys =>
    (match prev, y with
     | some a, some b => some ((b - a) / a)
     | _, _ => none) :: pctChangeOptAux y ys

/-- `pct_change()` over a possibly-NaN column. -/
def pctChangeOpt : List (Option ℚ) → List (Option ℚ)
  | [] => []
  | x :: xs => none :: pctChangeOptAux x xs

/-- The signal column written by `SMAStrategy.generate_signals`
(always a defined number; NaN averages compare False and leave 0). -/
def smaSignalCol (s l : List (Option ℚ)) : List (Option ℚ) :=
  (s.zip l).map fun p => some (smaSignalRow p.1 p.2)

/-- `SMAStrategy.generate_signals(data)` as heap actions:
`df = data.copy()` allocates, then the four column assignments
(`sma_short`, `sma_long`, `signal`, `position`) each mutate the copy;
the address of the copy is returned. -/
def smaGenSignalsHeap (cfg : SMAStrategy) (h : Heap) (dataRef : Nat) :
    Heap × Nat :=
  let a := heapAlloc h (heapRead h dataRef)
  let h1 := a.1
  let r := a.2
  let h2 := heapWrite h1 r ((heapRead h1 r).setCol ColName.sma_short
      (rollingMeanOpt cfg.short_window ((heapRead h1 r).getCol ColName.close)))
  let h3 := heapWrite h2 r ((heapRead h2 r).setCol ColName.sma_long
      (rollingMeanOpt cfg.long_window ((heapRead h2 r).getCol ColName.close)))
  let h4 := heapWrite h3 r ((heapRead h3 r).setCol ColName.signal
      (smaSignalCol ((heapRead h3 r).getCol ColName.sma_short)
        ((heapRead h3 r).getCol ColName.sma_long)))
  let h5 := heapWrite h4 r ((heapRead h4 r).setCol ColName.position
      (seriesDiffOpt ((heapRead h4 r).getCol ColName.signal)))
  (h5, r)

/-- `BacktestEngine._calculate_portfolio(df)` as heap actions:
`df = df.copy()` allocates, then the loop's row-by-row `loc` writes fill
the three columns of the copy (their value-level content is
`portfolioRun`; the ingested price series has no undefined closes per
the data model, and the heap-frame theorem below is independent of the
column values). -/
def portfolioHeap (cap : ℚ) (h : Heap) (dfRef : Nat) : Heap × Nat :=
  let a := heapAlloc h (heapRead h dfRef)
  let h1 := a.1
  let r := a.2
  let run := portfolioRun cap
      (((heapRead h1 r).getCol ColName.position).zip
        (((heapRead h1 r).getCol ColName.close).map fun o => o.getD 0))
  let h2 := heapWrite h1 r ((heapRead h1 r).setCol ColName.holdings
      (run.map fun x => some x.2.holdings))
  let h3 := heapWrite h2 r ((heapRead h2 r).setCol ColName.cash
      (run.map fun x => some x.2.cash))
  let h4 := heapWrite h3 r ((heapRead h3 r).setCol ColName.portfolio_value
      (run.map fun x => some x.2.portfolio_value))
  (h4, r)

/-- `BacktestEngine._calculate_metrics(df)`'s only write:
`df['daily_return'] = df['portfolio_value'].pct_change()` mutates the
frame it is handed IN PLACE (no copy is taken here). -/
def metricsHeap (h : Heap) (dfRef : Nat) : Heap :=
  heapWrite h dfRef ((heapRead h dfRef).setCol ColName.daily_return
    (pctChangeOpt ((heapRead h dfRef).getCol ColName.portfolio_value)))

/-- `BacktestEngine.run(strategy)` for an `SMAStrategy`, as heap actions:
signals from `self.data`, portfolio over the signal frame, metrics over
the portfolio frame; returns the final heap and the address of the
result frame handed back to the caller. -/
def runHeap (cfg : SMAStrategy) (cap : ℚ) (h : Heap) (dataRef : Nat) :
    Heap × Nat :=
  let g := smaGenSignalsHeap cfg h dataRef
  let p := portfolioHeap cap g.1 g.2
  (metricsHeap p.1 p.2, p.2)

/-- Spec-side count of nonzero position-change EVENTS (what C4's sentence
counts; a NaN entry is not an event). Compared against the code's
`numTrades`, which halves the SUM OF MAGNITUDES instead. -/
def countNonzero (ps : List (Option ℚ)) : Nat :=
  (ps.filter fun p =>
    match p with
    | none => false
    | some x => decide (x ≠ 0)).length

/-- Spec-side list of the actual close-to-close price changes
`close[j] - close[j-1]` (the series has `length - 1` of them; the code's
`diff` additionally fabricates an undefined entry at index 0). -/
def trueDeltas (closes : List ℚ) : List ℚ :=
  (closes.zip closes.tail).map fun p => p.2 - p.1

/-- Positive part of an actual price change (spec-side gain). -/
def specGainPart (x : ℚ) : ℚ :=
  if 0 < x then x else 0

/-- Magnitude of the negative part of an actual price change
(spec-side loss). -/
def specLossPart (x : ℚ) : ℚ :=
  if x < 0 then -x else 0

/-- The reachable-state invariant of the portfolio loop: flat with all
value in cash, or long with all value in shares. -/
def PortInv (s : PortState) : Prop :=
  (s.position = 0 ∧ s.shares = 0 ∧ 0 < s.cash) ∨
    (s.position = 1 ∧ 0 < s.shares ∧ s.cash = 0)

/-- The per-step property of C2, relating an output (state, row) pair to
its input (position-change, close) row. -/
def C2Prop (e : PortState × PortRow) (r : Option ℚ × ℚ) : Prop :=
  e.2.portfolio_value = e.2.cash + e.1.shares * r.2 ∧
    e.2.cash = e.1.cash ∧ e.2.holdings = e.1.shares * r.2 ∧
    0 ≤ e.1.cash ∧ 0 ≤ e.1.shares ∧
    (e.1.shares = 0 ∨ e.1.cash = 0) ∧ (0 < e.1.shares ∨ 0 < e.1.cash)

lemma toSpecState_flat (s : PortState) :
    (toSpecState s).pos = SpecPos.FLAT ↔ s.position = 0 := by
  by_cases h : s.position = 0 <;> simp [toSpecState, h]

lemma toSpecState_shares (s : PortState) : (toSpecState s).shares = s.shares := rfl

lemma specStep_eq_portStep (s : PortState) (hs : s.position = 0 ∨ s.position = 1)
    (pc : Option ℚ) (c : ℚ) :
    specStep (toSpecState s) pc c =
      (toSpecState (portStep s pc c).1, (portStep s pc c).2) := by
  cases pc with
  | none => rfl
  | some p =>
    rcases hs with h | h <;>
      by_cases hp1 : 0 < p <;> by_cases hp2 : p < 0 <;>
        simp [specStep, portStep, toSpecState, h, hp1, hp2]

lemma portStep_position (s : PortState) (hs : s.position = 0 ∨ s.position = 1)
    (pc : Option ℚ) (c : ℚ) :
    (portStep s pc c).1.position = 0 ∨ (portStep s pc c).1.position = 1 := by
  cases pc with
  | none => simpa [portStep] using hs
  | some p =>
    simp only [portStep]
    split_ifs <;> simp [hs]

lemma specRunAux_eq_portfolioAux (rows : List (Option ℚ × ℚ)) :
    ∀ s : PortState, s.position = 0 ∨ s.position = 1 →
      specRunAux (toSpecState s) rows =
        (portfolioAux s rows).map fun x => (toSpecState x.1, x.2) := by
  induction rows with
  | nil => intro s _; rfl
  | cons r rest ih =>
    intro s hs
    obtain ⟨p, c⟩ := r
    simp only [specRunAux, portfolioAux, List.map_cons]
    rw [specStep_eq_portStep s hs, ih _ (portStep_position s hs p c)]

/-- C1. The engine's per-step transition (`_calculate_portfolio`) computes
exactly the rule the specification words: NaN position-change carries the
state forward with mark-to-market only; position-change > 0 from FLAT
converts all cash to shares at the close; position-change < 0 from LONG
converts all shares to cash; every other case leaves shares, cash and
position unchanged; and the recorded row is always
holdings = shares × close, cash, portfolio_value = cash + holdings.
Stated as a refinement: the run of the spec-worded machine `specStep`
coincides, under the FLAT/LONG reading of the code's 0/1 flag, with the
run of the embedded code `portStep`. -/
theorem C1_transition_rule_refinement (cap : ℚ) (rows : List (Option ℚ × ℚ)) :
    specRun cap rows = (portfolioRun cap rows).map fun x => (toSpecState x.1, x.2) :=
  specRunAux_eq_portfolioAux rows ⟨0, 0, cap⟩ (Or.inl rfl)

lemma portStep_inv (s : PortState) (hinv : PortInv s) (pc : Option ℚ) (c : ℚ)
    (hc : 0 < c) : PortInv (portStep s pc c).1 := by
  cases pc with
  | none => simpa [portStep] using hinv
  | some p =>
    simp only [portStep]
    split_ifs with h1 h2
    · rcases hinv with ⟨_, _, hcash⟩ | ⟨hpos, _, _⟩
      · exact Or.inr ⟨rfl, div_pos hcash hc, rfl⟩
      · exact absurd (h1.2 ▸ hpos) (by simp)
    · rcases hinv with ⟨hpos, _, _⟩ | ⟨_, hsh, _⟩
      · exact absurd (h2.2 ▸ hpos) (by simp)
      · exact Or.inl ⟨rfl, rfl, mul_pos hsh hc⟩
    · exact hinv

lemma portStep_row (s : PortState) (pc : Option ℚ) (c : ℚ) :
    (portStep s pc c).2 =
      ⟨(portStep s pc c).1.shares * c, (portStep s pc c).1.cash,
        (portStep s pc c).1.cash + (portStep s pc c).1.shares * c⟩ := by
  cases pc <;> rfl

lemma portInv_c2 (s : PortState) (hinv : PortInv s) :
    0 ≤ s.cash ∧ 0 ≤ s.shares ∧ (s.shares = 0 ∨ s.cash = 0) ∧
      (0 < s.shares ∨ 0 < s.cash) := by
  rcases hinv with ⟨_, hsh, hcash⟩ | ⟨_, hsh, hcash⟩
  · exact ⟨le_of_lt hcash, le_of_eq hsh.symm, Or.inl hsh, Or.inr hcash⟩
  · exact ⟨le_of_eq hcash.symm, le_of_lt hsh, Or.inr hcash, Or.inl hsh⟩

lemma portfolioAux_c2 (rows : List (Option ℚ × ℚ)) :
    ∀ s : PortState, PortInv s → (∀ r ∈ rows, 0 < r.2) →
      List.Forall₂ C2Prop (portfolioAux s rows) rows := by
  induction rows with
  | nil => intro s _ _; exact List.Forall₂.nil
  | cons r rest ih =>
    intro s hinv hcl
    obtain ⟨p, c⟩ := r
    have hc : 0 < c := hcl (p, c) (List.mem_cons_self _ _)
    have hinv2 := portStep_inv s hinv p c hc
    refine List.Forall₂.cons ?_ (ih _ hinv2 fun x hx => hcl x (List.mem_cons_of_mem _ hx))
    obtain ⟨h1, h2, h3, h4⟩ := portInv_c2 _ hinv2
    refine ⟨?_, ?_, ?_, h1, h2, h3, h4⟩ <;> rw [portStep_row]

/-- C2. For every price series with all closes positive and every
initial capital > 0, at every step of the simulated run: the recorded
portfolio value equals cash + shares × close exactly (and the recorded
cash and holdings columns are the state's cash and shares × close);
cash and shares are non-negative; shares = 0 or cash = 0 (never both
positive); and one of the two is strictly positive (never both zero,
which with a positive initial capital cannot occur). -/
theorem C2_portfolio_invariants (cap : ℚ) (rows : List (Option ℚ × ℚ))
    (hcap : 0 < cap) (hcl : ∀ r ∈ rows, 0 < r.2) :
    List.Forall₂ C2Prop (portfolioRun cap rows) rows :=
  portfolioAux_c2 rows ⟨0, 0, cap⟩ (Or.inl ⟨rfl, rfl, hcap⟩) hcl

/-- Witness for C2 at a concrete run: capital 1, a single BUY row at
close 2. -/
theorem C2_portfolio_invariants_witness :
    List.Forall₂ C2Prop (portfolioRun 1 [(some 1, 2)]) [(some 1, 2)] :=
  C2_portfolio_invariants 1 [(some 1, 2)] (by norm_num)
    (by intro r hr; simp only [List.mem_singleton] at hr; rw [hr]; norm_num)

lemma ratFloor_eq (q : ℚ) : q.floor = ⌊q⌋ := by
  rw [Rat.floor_def']
  exact Rat.floor_def.symm

/-- C3. Evaluation of the code at the claim's own Scenario D (one BUY at
close 100, one SELL at close 110, initial capital 10000, plus the
always-NaN first position row that `signal.diff()` produces): the
portfolio is right (total return 10), and `num_trades = 1`, but the
reported win rate is 0 — not the claimed 100 — because
`df[df['position'] != 0]` keeps the NaN row (pandas `NaN != 0` is True),
so the pairing loop pairs (row0, BUY) instead of (BUY, SELL), and because
the code divides wins by `num_trades / 2` instead of `num_trades`.
Shifting the entry price below 100 makes the same run report 200. -/
theorem C3_win_rate_code_divergence :
    portfolioValues 10000 [(none, 100), (some 1, 100), (some (-1), 110)] =
        [10000, 10000, 11000] ∧
      totalReturn 10000
        (portfolioValues 10000 [(none, 100), (some 1, 100), (some (-1), 110)]) = 10 ∧
      numTrades [none, some 1, some (-1)] = 1 ∧
      winRate [none, some 1, some (-1)] [100, 100, 110] = 0 ∧
      winRate [none, some 1, some (-1)] [90, 100, 110] = 200 := by
  have hnt : numTrades [none, some 1, some (-1)] = 1 := by
    have h : absSum [none, some 1, some (-1)] = 2 := by norm_num [absSum, optAbs]
    unfold numTrades
    rw [h]
    norm_num
    decide
  refine ⟨?_, ?_, hnt, ?_, ?_⟩
  · norm_num [portfolioValues, portfolioRun, portfolioAux, portStep]
  · norm_num [portfolioValues, portfolioRun, portfolioAux, portStep, totalReturn]
  · unfold winRate
    rw [hnt]
    norm_num [tradeCloses, countWins, List.filter]
  · unfold winRate
    rw [hnt]
    norm_num [tradeCloses, countWins, List.filter]

/-- C4 counterexample: a signal jump from -1 to +1 is a single nonzero
position-change event of magnitude 2. The code's
`num_trades = int(abs().sum() / 2)` then reports 1, while the claim's
"count of nonzero events divided by 2, floored" is 0, and the claimed
bound `num_trades × 2 ≤ count of nonzero events` fails (2 > 1). -/
theorem C4_counterexample :
    numTrades [none, some 2] = 1 ∧ countNonzero [none, some 2] = 1 ∧
      ¬ numTrades [none, some 2] * 2 ≤ countNonzero [none, some 2] ∧
      numTrades [none, some 2] ≠ countNonzero [none, some 2] / 2 := by
  have hnt : numTrades [none, some 2] = 1 := by
    have h : absSum [none, some 2] = 2 := by norm_num [absSum, optAbs]
    unfold numTrades
    rw [h]
    norm_num
    decide
  have hcn : countNonzero [none, some 2] = 1 := by decide
  exact ⟨hnt, hcn, by rw [hnt, hcn]; decide, by rw [hnt, hcn]; decide⟩

lemma optAbs_nonneg (p : Option ℚ) : 0 ≤ optAbs p := by
  cases p with
  | none => simp [optAbs]
  | some x => simp [optAbs, abs_nonneg]

lemma absSum_nonneg (ps : List (Option ℚ)) : 0 ≤ absSum ps := by
  unfold absSum
  apply List.sum_nonneg
  intro x hx
  obtain ⟨p, _, rfl⟩ := List.mem_map.mp hx
  exact optAbs_nonneg p

lemma absSum_le_countNonzero (ps : List (Option ℚ))
    (h : ∀ p ∈ ps, optAbs p ≤ 1) : absSum ps ≤ (countNonzero ps : ℚ) := by
  induction ps with
  | nil => simp [absSum, countNonzero]
  | cons p rest ih =>
    have hrest := ih fun q hq => h q (List.mem_cons_of_mem _ hq)
    have hp := h p (List.mem_cons_self _ _)
    have hstep : absSum (p :: rest) = optAbs p + absSum rest := by
      simp [absSum]
    cases p with
    | none =>
      have hc : countNonzero (none :: rest) = countNonzero rest := by
        simp [countNonzero, List.filter]
      rw [hstep, hc]
      have ho : optAbs none = 0 := rfl
      rw [ho, zero_add]
      exact hrest
    | some x =>
      by_cases hx : x = 0
      · have hc : countNonzero (some x :: rest) = countNonzero rest := by
          simp [countNonzero, List.filter, hx]
        have ho : optAbs (some x) = 0 := by simp [optAbs, hx]
        rw [hstep, hc, ho, zero_add]
        exact hrest
      · have hc : countNonzero (some x :: rest) = countNonzero rest + 1 := by
          simp [countNonzero, List.filter, hx]
        have ho : optAbs (some x) = |x| := rfl
        rw [hstep, hc, ho]
        push_cast
        have h1 : |x| ≤ 1 := by simpa [optAbs] using hp
        linarith

/-- C4 amended: `num_trades` is the floor of HALF THE SUM OF ABSOLUTE
position-change values (not of the event count), so
`num_trades × 2 ≤ Σ |position-change|` always, and the claimed bound
against the count of nonzero events holds exactly when every
position-change has magnitude at most 1 (no direct -1 → +1 jumps). -/
theorem C4_num_trades_amended (ps : List (Option ℚ)) :
    (numTrades ps : ℚ) * 2 ≤ absSum ps ∧
      ((∀ p ∈ ps, optAbs p ≤ 1) → numTrades ps * 2 ≤ countNonzero ps) := by
  have hS : 0 ≤ absSum ps := absSum_nonneg ps
  have hnn : (0 : ℤ) ≤ ⌊absSum ps / 2⌋ := Int.floor_nonneg.mpr (by positivity)
  have hkey : (numTrades ps : ℚ) ≤ absSum ps / 2 := by
    unfold numTrades
    rw [ratFloor_eq]
    have h2 : ((⌊absSum ps / 2⌋.toNat : ℤ) : ℚ) ≤ absSum ps / 2 := by
      rw [Int.toNat_of_nonneg hnn]
      exact Int.floor_le _
    exact_mod_cast h2
  constructor
  · linarith
  · intro hmag
    have h2 : absSum ps ≤ (countNonzero ps : ℚ) := absSum_le_countNonzero ps hmag
    have h3 : ((numTrades ps * 2 : ℕ) : ℚ) ≤ ((countNonzero ps : ℕ) : ℚ) := by
      push_cast
      linarith
    exact_mod_cast h3

/-- Witness for C4's amended statement at a single +1 entry event. -/
theorem C4_num_trades_amended_witness :
    (numTrades [some 1] : ℚ) * 2 ≤ absSum [some 1] ∧
      numTrades [some 1] * 2 ≤ countNonzero [some 1] :=
  ⟨(C4_num_trades_amended [some 1]).1,
    (C4_num_trades_amended [some 1]).2 (by decide)⟩

lemma diffAux_length (prev : ℚ) (xs : List ℚ) :
    (diffAux prev xs).length = xs.length := by
  induction xs generalizing prev with
  | nil => rfl
  | cons y ys ih => simp [diffAux, ih]

lemma seriesDiff_length (xs : List ℚ) : (seriesDiff xs).length = xs.length := by
  cases xs with
  | nil => rfl
  | cons x xs => simp [seriesDiff, diffAux_length]

lemma rollingMean_length (w : Nat) (xs : List ℚ) :
    (rollingMean w xs).length = xs.length := by
  simp [rollingMean]

lemma rollingMean_get (w : Nat) (xs : List ℚ) (i : Nat) (hi : i < xs.length) :
    (rollingMean w xs).get? i =
      some (if w ≤ i + 1 then some (((xs.drop (i + 1 - w)).take w).sum / w)
        else none) := by
  rw [rollingMean, List.get?_map, List.get?_range hi]
  rfl

lemma gainPart_nonneg (d : Option ℚ) : 0 ≤ gainPart d := by
  cases d with
  | none => simp [gainPart]
  | some x =>
    simp only [gainPart]
    split_ifs with h
    · exact le_of_lt h
    · exact le_refl 0

lemma lossPart_nonneg (d : Option ℚ) : 0 ≤ lossPart d := by
  cases d with
  | none => simp [lossPart]
  | some x =>
    simp only [lossPart]
    split_ifs with h
    · linarith
    · exact le_refl 0

lemma window_mean_nonneg (w : Nat) (xs : List ℚ) (hxs : ∀ x ∈ xs, 0 ≤ x)
    (a : Nat) : 0 ≤ ((xs.drop a).take w).sum / (w : ℚ) := by
  apply div_nonneg _ (by positivity)
  apply List.sum_nonneg
  intro x hx
  exact hxs x (List.drop_subset _ _ (List.take_subset _ _ hx))

lemma gainAvg_get (w : Nat) (closes : List ℚ) (i : Nat) (hi : i < closes.length) :
    ∃ g : Option ℚ, (gainAvg w closes).get? i = some g ∧
      (g = none ↔ ¬ w ≤ i + 1) ∧ ∀ x, g = some x → 0 ≤ x := by
  have hlen : i < ((seriesDiff closes).map gainPart).length := by
    rw [List.length_map, seriesDiff_length]
    exact hi
  rw [gainAvg, rollingMean_get w _ i hlen]
  by_cases hw : w ≤ i + 1
  · refine ⟨_, rfl, ?_, ?_⟩
    · simp [hw]
    · intro x hx
      rw [if_pos hw] at hx
      obtain rfl : _ = x := Option.some_inj.mp hx
      apply window_mean_nonneg
      intro y hy
      obtain ⟨d, _, rfl⟩ := List.mem_map.mp hy
      exact gainPart_nonneg d
  · exact ⟨_, rfl, by simp [hw], by intro x hx; rw [if_neg hw] at hx; cases hx⟩

lemma lossAvg_get (w : Nat) (closes : List ℚ) (i : Nat) (hi : i < closes.length) :
    ∃ l : Option ℚ, (lossAvg w closes).get? i = some l ∧
      (l = none ↔ ¬ w ≤ i + 1) ∧ ∀ x, l = some x → 0 ≤ x := by
  have hlen : i < ((seriesDiff closes).map lossPart).length := by
    rw [List.length_map, seriesDiff_length]
    exact hi
  rw [lossAvg, rollingMean_get w _ i hlen]
  by_cases hw : w ≤ i + 1
  · refine ⟨_, rfl, ?_, ?_⟩
    · simp [hw]
    · intro x hx
      rw [if_pos hw] at hx
      obtain rfl : _ = x := Option.some_inj.mp hx
      apply window_mean_nonneg
      intro y hy
      obtain ⟨d, _, rfl⟩ := List.mem_map.mp hy
      exact lossPart_nonneg d
  · exact ⟨_, rfl, by simp [hw], by intro x hx; rw [if_neg hw] at hx; cases hx⟩

lemma calculate_rsi_get (w : Nat) (closes : List ℚ) (i : Nat)
    (g l : Option ℚ) (hg : (gainAvg w closes).get? i = some g)
    (hl : (lossAvg w closes).get? i = some l) :
    (calculate_rsi w closes).get? i =
      some (rsiOfRs (optDiv g (replaceZeroNan l))) := by
  rw [calculate_rsi, List.get?_map]
  have hz : ((gainAvg w closes).zip (lossAvg w closes)).get? i = some (g, l) :=
    (List.get?_zip_eq_some _ _ _ _).mpr ⟨hg, hl⟩
  rw [hz]
  rfl

lemma gainAvg_flat3 : gainAvg 2 [1, 1, 1] = [none, some 0, some 0] := by
  norm_num [gainAvg, rollingMean, seriesDiff, diffAux, gainPart, List.range,
    List.range.loop]

lemma lossAvg_flat3 : lossAvg 2 [1, 1, 1] = [none, some 0, some 0] := by
  norm_num [lossAvg, rollingMean, seriesDiff, diffAux, lossPart, List.range,
    List.range.loop]

lemma rsi_flat3 : calculate_rsi 2 [1, 1, 1] = [100, 100, 100] := by
  rw [calculate_rsi, gainAvg_flat3, lossAvg_flat3]
  norm_num [replaceZeroNan, optDiv, rsiOfRs]

/-- C5 counterexample: a flat 3-point series with RSI window 2 and the
default thresholds 30/70. At step 1 the trailing average gain and loss
are both (defined and) zero, and at step 0 they are not yet defined —
yet the computed rsi is 100 (a defined number, not NaN) at every step,
because `rs.fillna(inf)` also converts those NaN ratios to `+inf`, and
the emitted signal is -1 (not 0) since 100 > 70. This also exhibits
rsi = 100 with average gain zero, refuting "rsi equals 100 only when the
average loss is 0 while the average gain is positive". -/
theorem C5_counterexample :
    (gainAvg 2 [1, 1, 1]).get? 1 = some (some 0) ∧
      (lossAvg 2 [1, 1, 1]).get? 1 = some (some 0) ∧
      (gainAvg 2 [1, 1, 1]).get? 0 = some none ∧
      (lossAvg 2 [1, 1, 1]).get? 0 = some none ∧
      calculate_rsi 2 [1, 1, 1] = [100, 100, 100] ∧
      rsiSignals 2 30 70 [1, 1, 1] = [-1, -1, -1] := by
  refine ⟨by rw [gainAvg_flat3]; rfl, by rw [lossAvg_flat3]; rfl,
    by rw [gainAvg_flat3]; rfl, by rw [lossAvg_flat3]; rfl, rsi_flat3, ?_⟩
  rw [rsiSignals, rsi_flat3]
  norm_num [rsiSignalRow]

/-- C5 amended: at every step where the trailing averages are undefined
or the average loss is zero (which covers the both-zero case), the
computed rsi is 100 — not NaN — and, whenever the overbought threshold
is below 100 (default 70), the emitted signal is -1, not 0. Moreover
rsi = 100 EXACTLY when the average loss is undefined or zero, regardless
of the average gain. -/
theorem C5_rsi_amended (w : Nat) (closes : List ℚ) (os ob : ℚ)
    (hob : ob < 100) (i : Nat) (hi : i < closes.length) :
    ((calculate_rsi w closes).get? i = some 100 ↔
        ((lossAvg w closes).get? i = some none ∨
          (lossAvg w closes).get? i = some (some 0))) ∧
      (((lossAvg w closes).get? i = some none ∨
          (lossAvg w closes).get? i = some (some 0)) →
        (rsiSignals w os ob closes).get? i = some (-1)) := by
  obtain ⟨g, hg, hgn, hgpos⟩ := gainAvg_get w closes i hi
  obtain ⟨l, hl, hln, hlpos⟩ := lossAvg_get w closes i hi
  have hget := calculate_rsi_get w closes i g l hg hl
  have hcond : ((lossAvg w closes).get? i = some none ∨
      (lossAvg w closes).get? i = some (some 0)) ↔ (l = none ∨ l = some 0) := by
    rw [hl]
    constructor
    · rintro (h | h)
      · exact Or.inl (Option.some_inj.mp h)
      · exact Or.inr (Option.some_inj.mp h)
    · rintro (rfl | rfl)
      · exact Or.inl rfl
      · exact Or.inr rfl
  have hval : rsiOfRs (optDiv g (replaceZeroNan l)) = 100 ↔
      (l = none ∨ l = some 0) := by
    cases l with
    | none => cases g <;> simp [replaceZeroNan, optDiv, rsiOfRs]
    | some lv =>
      by_cases hlv : lv = 0
      · subst hlv
        cases g <;> simp [replaceZeroNan, optDiv, rsiOfRs]
      · have hlvpos : 0 < lv := lt_of_le_of_ne (hlpos lv rfl) (Ne.symm hlv)
        cases g with
        | none =>
          exfalso
          have h1 : ¬ w ≤ i + 1 := hgn.mp rfl
          have h2 : (some lv : Option ℚ) = none := hln.mpr h1
          cases h2
        | some gv =>
          have hg0 : 0 ≤ gv := hgpos gv rfl
          have hr : 0 ≤ gv / lv := div_nonneg hg0 (le_of_lt hlvpos)
          have hden : (0 : ℚ) < 1 + gv / lv := by linarith
          simp only [replaceZeroNan, optDiv, rsiOfRs, if_neg hlv]
          constructor
          · intro h
            exfalso
            have hfrac : 0 < 100 / (1 + gv / lv) := by positivity
            linarith
          · rintro (h | h) <;> simp at h
            exact absurd h hlv
  constructor
  · rw [hget, hcond]
    constructor
    · intro h
      exact hval.mp (Option.some_inj.mp h)
    · intro h
      rw [hval.mpr h]
  · intro h
    have h100 : rsiOfRs (optDiv g (replaceZeroNan l)) = 100 :=
      hval.mpr (hcond.mp h)
    rw [rsiSignals, List.get?_map, hget]
    simp [rsiSignalRow, h100, hob]

/-- Witness for C5's amended statement: window 2, flat series, defaults
30/70, step 1 (average loss defined and zero) — the signal is -1. -/
theorem C5_rsi_amended_witness :
    (rsiSignals 2 30 70 [1, 1, 1]).get? 1 = some (-1) :=
  (C5_rsi_amended 2 [1, 1, 1] 30 70 (by norm_num) 1 (by norm_num)).2
    (Or.inr (by rw [lossAvg_flat3]; rfl))

/-- C6 counterexample: on a one-bar series the daily-return series is a
single NaN, so `std()` is NaN; the guard `std != 0` is then True in
Python, the code takes the `mean/std*sqrt(252)` branch, and the reported
sharpe ratio is NaN — not the claimed 0. (`sharpeSgnSq` is the signed
square of the reported ratio; it is `none`/`some 0` exactly when the
report is NaN/0.) -/
theorem C6_sharpe_counterexample :
    sharpeSgnSq [10000] = none ∧ sharpeSgnSq [10000] ≠ some 0 := by
  have h : sharpeSgnSq [10000] = none := by
    simp [sharpeSgnSq, stdNeZeroTest, seriesVar, seriesMean, definedVals,
      pctChange, pctChangeAux]
  exact ⟨h, by rw [h]; exact fun hc => Option.noConfusion hc⟩

/-- C6 amended: the reported sharpe ratio is 0 whenever the standard
deviation of the daily returns is DEFINED and zero (the flat path with
at least two defined returns); but when it is undefined — fewer than two
defined daily returns, e.g. a one-bar series — the report is NaN, not 0,
because `NaN != 0` passes the guard and NaN then propagates through
`mean/std*sqrt(252)`. -/
theorem C6_sharpe_amended (pv : List ℚ) :
    (seriesVar (pctChange pv) = some 0 → sharpeSgnSq pv = some 0) ∧
      ((definedVals (pctChange pv)).length < 2 → sharpeSgnSq pv = none) := by
  constructor
  · intro h
    simp [sharpeSgnSq, stdNeZeroTest, h]
  · intro h
    have hv : seriesVar (pctChange pv) = none := by
      unfold seriesVar
      exact if_pos h
    cases hsm : seriesMean (pctChange pv) with
    | none => simp [sharpeSgnSq, stdNeZeroTest, hv, hsm]
    | some m => simp [sharpeSgnSq, stdNeZeroTest, hv, hsm]

/-- Witness for C6's amended statement: a flat 3-bar portfolio path
reports sharpe 0; a one-bar path reports NaN. -/
theorem C6_sharpe_amended_witness :
    sharpeSgnSq [1, 1, 1] = some 0 ∧ sharpeSgnSq [5] = none :=
  ⟨(C6_sharpe_amended [1, 1, 1]).1
      (by
        have hp : pctChange [1, 1, 1] = [none, some 0, some 0] := by
          norm_num [pctChange, pctChangeAux]
        rw [hp]
        norm_num [seriesVar, definedVals, List.filterMap_cons, List.filterMap_nil]),
    (C6_sharpe_amended [5]).2
      (by norm_num [definedVals, pctChange, pctChangeAux])⟩

lemma portfolioAux_length (rows : List (Option ℚ × ℚ)) :
    ∀ s : PortState, (portfolioAux s rows).length = rows.length := by
  induction rows with
  | nil => intro s; rfl
  | cons r rest ih =>
    intro s
    obtain ⟨p, c⟩ := r
    simp [portfolioAux, ih]

/-- C7 counterexample: a FLAT→LONG entry demanded at a NEGATIVE close
(-2) and the subsequent exit at close 4. No error of any kind is raised:
the loop executes the conversion (`shares = cash / close` = -50 shares),
keeps going, and produces a portfolio state for the following step too —
ending with negative cash. (For close = 0 the numpy float division
likewise raises nothing, yielding inf shares with a RuntimeWarning.) -/
theorem C7_counterexample :
    portfolioRun 100 [(some 1, -2), (some (-1), 4)] =
      [(⟨1, -50, 0⟩, ⟨100, 0, 100⟩), (⟨0, 0, -200⟩, ⟨0, -200, -200⟩)] := by
  norm_num [portfolioRun, portfolioAux, portStep]

/-- C7 amended: the simulator never fails on a zero-or-negative close at
a conversion step — it is a total loop that silently produces a
portfolio state for every input step (the Python division of numpy
floats yields inf / a negative share count instead of raising). -/
theorem C7_no_error_amended (cap : ℚ) (rows : List (Option ℚ × ℚ)) :
    (portfolioRun cap rows).length = rows.length := by
  rw [portfolioRun]
  exact portfolioAux_length rows _

lemma rsiSignals_length (w : Nat) (os ob : ℚ) (closes : List ℚ) :
    (rsiSignals w os ob closes).length = closes.length := by
  rw [rsiSignals, List.length_map, calculate_rsi, List.length_map,
    List.length_zip, gainAvg, lossAvg, rollingMean_length, rollingMean_length,
    List.length_map, List.length_map, seriesDiff_length, min_self]

/-- C8 counterexample: `RSIStrategy(window=2, oversold=70, overbought=30)`
(oversold ≥ overbought) with `initial_capital = -5` — both invalid per
the claim. Construction succeeds, no error is ever raised, and the run
produces a complete result record (final capital -5, return 0%, zero
trades). -/
theorem C8_counterexample :
    runRsiBacktest (-5) (mkRSIStrategy 2 70 30) [1, 2, 1] = ⟨-5, 0, 0, 0⟩ := by
  have hg : gainAvg 2 [1, 2, 1] = [none, some (1 / 2), some (1 / 2)] := by
    norm_num [gainAvg, rollingMean, seriesDiff, diffAux, gainPart, List.range,
      List.range.loop]
  have hl : lossAvg 2 [1, 2, 1] = [none, some 0, some (1 / 2)] := by
    norm_num [lossAvg, rollingMean, seriesDiff, diffAux, lossPart, List.range,
      List.range.loop]
  have h1 : calculate_rsi 2 [1, 2, 1] = [100, 100, 50] := by
    rw [calculate_rsi, hg, hl]
    norm_num [replaceZeroNan, optDiv, rsiOfRs]
  have h2 : rsiSignals 2 70 30 [1, 2, 1] = [-1, -1, -1] := by
    rw [rsiSignals, h1]
    norm_num [rsiSignalRow]
  have h3 : rsiPositions 2 70 30 [1, 2, 1] = [none, some 0, some 0] := by
    rw [rsiPositions, h2]
    norm_num [seriesDiff, diffAux]
  have hnt : numTrades [none, some 0, some 0] = 0 := by
    have h : absSum [none, some 0, some 0] = 0 := by norm_num [absSum, optAbs]
    unfold numTrades
    rw [h]
    norm_num
    decide
  have hwr : winRate [none, some 0, some 0] [1, 2, 1] = 0 := by
    unfold winRate
    rw [hnt]
    norm_num
  have hpv : portfolioValues (-5)
      ([(none : Option ℚ), some 0, some 0].zip [1, 2, 1]) = [-5, -5, -5] := by
    norm_num [portfolioValues, portfolioRun, portfolioAux, portStep, List.zip,
      List.zipWith]
  simp only [runRsiBacktest, mkRSIStrategy]
  rw [h3, hpv, hnt, hwr]
  norm_num [totalReturn, List.getLastD]

/-- C8 amended: no configuration validation exists anywhere on the path
to a result: for EVERY initial capital (including ≤ 0), every threshold
pair (including oversold ≥ overbought) and every window ≥ 1 (pandas
itself rejects only w ≤ 0, inside `rolling`, with a generic ValueError),
construction succeeds and the backtest runs to completion, producing one
portfolio state per input bar. -/
theorem C8_no_validation_amended (cap os ob : ℚ) (w : Nat) (hw : 1 ≤ w)
    (closes : List ℚ) :
    (rsiBacktestRows (mkRSIStrategy w os ob) cap closes).length =
      closes.length := by
  rw [rsiBacktestRows, rsiEngineRows, portfolioRun, portfolioAux_length,
    List.length_zip, mkRSIStrategy]
  simp only [rsiPositions, seriesDiff_length, rsiSignals_length, min_self]

/-- Witness for C8's amended statement at the invalid configuration of
the counterexample. -/
theorem C8_no_validation_amended_witness :
    (rsiBacktestRows (mkRSIStrategy 2 70 30) (-5) [1, 2, 1]).length =
      ([1, 2, 1] : List ℚ).length :=
  C8_no_validation_amended (-5) 70 30 2 (by norm_num) [1, 2, 1]

lemma heapRead_write_ne (h : Heap) (r r' : Nat) (f : Frame) (hne : r' ≠ r) :
    heapRead (heapWrite h r' f) r = heapRead h r := by
  unfold heapRead heapWrite
  rw [List.getD_eq_getElem?_getD, List.getD_eq_getElem?_getD,
    List.getElem?_set_ne hne]

lemma heapWrite_length (h : Heap) (r : Nat) (f : Frame) :
    List.length (heapWrite h r f) = List.length h :=
  List.length_set h r f

lemma heapRead_append (h : Heap) (f : Frame) (r : Nat)
    (hr : r < List.length h) :
    heapRead (List.append h [f]) r = heapRead h r := by
  unfold heapRead
  rw [List.getD_eq_getElem?_getD, List.getD_eq_getElem?_getD]
  have h1 : (h ++ [f])[r]? = h[r]? := List.getElem?_append_left hr
  rw [← h1]
  rfl

lemma smaGenSignalsHeap_spec (cfg : SMAStrategy) (h : Heap) (d : Nat) :
    (smaGenSignalsHeap cfg h d).2 = List.length h ∧
      List.length (smaGenSignalsHeap cfg h d).1 = List.length h + 1 ∧
      ∀ r, r < List.length h →
        heapRead (smaGenSignalsHeap cfg h d).1 r = heapRead h r := by
  refine ⟨rfl, ?_, ?_⟩
  · simp only [smaGenSignalsHeap, heapAlloc]
    rw [heapWrite_length, heapWrite_length, heapWrite_length, heapWrite_length]
    have happ : List.append h [heapRead h d] = h ++ [heapRead h d] := rfl
    rw [happ, List.length_append]
    rfl
  · intro r hr
    have hne : List.length h ≠ r := Nat.ne_of_gt hr
    simp only [smaGenSignalsHeap, heapAlloc]
    rw [heapRead_write_ne _ _ _ _ hne, heapRead_write_ne _ _ _ _ hne,
      heapRead_write_ne _ _ _ _ hne, heapRead_write_ne _ _ _ _ hne]
    exact heapRead_append h _ r hr

lemma portfolioHeap_spec (cap : ℚ) (h : Heap) (d : Nat) :
    (portfolioHeap cap h d).2 = List.length h ∧
      List.length (portfolioHeap cap h d).1 = List.length h + 1 ∧
      ∀ r, r < List.length h →
        heapRead (portfolioHeap cap h d).1 r = heapRead h r := by
  refine ⟨rfl, ?_, ?_⟩
  · simp only [portfolioHeap, heapAlloc]
    rw [heapWrite_length, heapWrite_length, heapWrite_length]
    have happ : List.append h [heapRead h d] = h ++ [heapRead h d] := rfl
    rw [happ, List.length_append]
    rfl
  · intro r hr
    have hne : List.length h ≠ r := Nat.ne_of_gt hr
    simp only [portfolioHeap, heapAlloc]
    rw [heapRead_write_ne _ _ _ _ hne, heapRead_write_ne _ _ _ _ hne,
      heapRead_write_ne _ _ _ _ hne]
    exact heapRead_append h _ r hr

lemma metricsHeap_read_ne (h : Heap) (d r : Nat) (hne : d ≠ r) :
    heapRead (metricsHeap h d) r = heapRead h r :=
  heapRead_write_ne h r d _ hne

/-- C9. Running a backtest never modifies the caller's ingested price
frame: for every heap, every address `r` of the engine's `self.data`
frame, every SMA configuration and capital, the frame at `r` after the
whole run (signals → portfolio → metrics) is identical to the frame
before, and the result frame handed back to the caller lives at a
different, freshly allocated address — every column write in the run
targets one of the two `.copy()` allocations. -/
theorem C9_run_preserves_data (cfg : SMAStrategy) (cap : ℚ) (h : Heap)
    (r : Nat) (hr : r < List.length h) :
    heapRead (runHeap cfg cap h r).1 r = heapRead h r ∧
      (runHeap cfg cap h r).2 ≠ r := by
  obtain ⟨hg2, hglen, hgread⟩ := smaGenSignalsHeap_spec cfg h r
  obtain ⟨hp2, hplen, hpread⟩ :=
    portfolioHeap_spec cap (smaGenSignalsHeap cfg h r).1
      (smaGenSignalsHeap cfg h r).2
  have hrg : r < List.length (smaGenSignalsHeap cfg h r).1 := by
    rw [hglen]
    omega
  have hp2r : (portfolioHeap cap (smaGenSignalsHeap cfg h r).1
      (smaGenSignalsHeap cfg h r).2).2 ≠ r := by
    rw [hp2, hglen]
    omega
  constructor
  · show heapRead (metricsHeap _ _) r = _
    rw [metricsHeap_read_ne _ _ r hp2r, hpread r hrg, hgread r hr]
  · exact hp2r

/-- Witness for C9 on a concrete one-frame heap holding a two-bar close
column. -/
theorem C9_run_preserves_data_witness :
    heapRead (runHeap (mkSMAStrategy 1 2) 10
        [Frame.mk [(ColName.close, [some 1, some 2])]] 0).1 0 =
      heapRead [Frame.mk [(ColName.close, [some 1, some 2])]] 0 ∧
      (runHeap (mkSMAStrategy 1 2) 10
        [Frame.mk [(ColName.close, [some 1, some 2])]] 0).2 ≠ 0 :=
  C9_run_preserves_data (mkSMAStrategy 1 2) 10
    [Frame.mk [(ColName.close, [some 1, some 2])]] 0 (by norm_num)

lemma diffAux_eq_trueDeltas (cs : List ℚ) :
    ∀ c : ℚ, diffAux c cs = (((c :: cs).zip cs).map fun p => some (p.2 - p.1)) := by
  induction cs with
  | nil => intro c; rfl
  | cons y ys ih =>
    intro c
    simp only [diffAux, List.zip_cons_cons, List.map_cons, ih y]

lemma gainPart_some (x : ℚ) : gainPart (some x) = specGainPart x := rfl

lemma lossPart_some (x : ℚ) : lossPart (some x) = specLossPart x := rfl

lemma seriesDiff_map_gainPart (c : ℚ) (cs : List ℚ) :
    (seriesDiff (c :: cs)).map gainPart =
      0 :: (trueDeltas (c :: cs)).map specGainPart := by
  simp only [seriesDiff, List.map_cons, diffAux_eq_trueDeltas, trueDeltas,
    List.tail_cons, List.map_map]
  have hfun : (gainPart ∘ fun p : ℚ × ℚ => some (p.2 - p.1)) =
      (specGainPart ∘ fun p : ℚ × ℚ => p.2 - p.1) := funext fun p => rfl
  rw [hfun]
  rfl

lemma seriesDiff_map_lossPart (c : ℚ) (cs : List ℚ) :
    (seriesDiff (c :: cs)).map lossPart =
      0 :: (trueDeltas (c :: cs)).map specLossPart := by
  simp only [seriesDiff, List.map_cons, diffAux_eq_trueDeltas, trueDeltas,
    List.tail_cons, List.map_map]
  have hfun : (lossPart ∘ fun p : ℚ × ℚ => some (p.2 - p.1)) =
      (specLossPart ∘ fun p : ℚ × ℚ => p.2 - p.1) := funext fun p => rfl
  rw [hfun]
  rfl

/-- C10. In the RSI computation the undefined first delta (index 0 of
`close.diff()`) is coerced to 0 in BOTH the gain and the loss series
before the rolling mean (since `NaN > 0` and `NaN < 0` are both False,
`where` substitutes the fill value 0). Hence for every series of length
≥ window: (a) the gain and loss averages are undefined before index
window-1, and (b) at index window-1 — the first numerically defined
step — each average is the sum of only window-1 ACTUAL price changes
plus one fabricated leading zero, divided by window. -/
theorem C10_nan_delta_coerced_to_zero (w : Nat) (hw : 1 ≤ w)
    (closes : List ℚ) (hlen : w ≤ closes.length) :
    (∀ i, i < w - 1 → (gainAvg w closes).get? i = some none ∧
        (lossAvg w closes).get? i = some none) ∧
      (gainAvg w closes).get? (w - 1) =
        some (some ((0 + (((trueDeltas closes).take (w - 1)).map
          specGainPart).sum) / w)) ∧
      (lossAvg w closes).get? (w - 1) =
        some (some ((0 + (((trueDeltas closes).take (w - 1)).map
          specLossPart).sum) / w)) := by
  obtain ⟨c, cs, rfl⟩ : ∃ c cs, closes = c :: cs := by
    cases closes with
    | nil => simp at hlen; omega
    | cons c cs => exact ⟨c, cs, rfl⟩
  have hlg : ((seriesDiff (c :: cs)).map gainPart).length = (c :: cs).length := by
    rw [List.length_map, seriesDiff_length]
  have hll : ((seriesDiff (c :: cs)).map lossPart).length = (c :: cs).length := by
    rw [List.length_map, seriesDiff_length]
  have hi1 : w - 1 < (c :: cs).length := by omega
  have hidx : w - 1 + 1 - w = 0 := by omega
  have hwle : w ≤ w - 1 + 1 := by omega
  have htake : ∀ l : List ℚ, (0 :: l).take w = 0 :: l.take (w - 1) := by
    intro l
    obtain ⟨w', rfl⟩ : ∃ w', w = w' + 1 := ⟨w - 1, by omega⟩
    simp [List.take_succ_cons]
  constructor
  · intro i hi
    have hiw : ¬ w ≤ i + 1 := by omega
    have hil : i < (c :: cs).length := by omega
    constructor
    · rw [gainAvg, rollingMean_get w _ i (hlg ▸ hil), if_neg hiw]
    · rw [lossAvg, rollingMean_get w _ i (hll ▸ hil), if_neg hiw]
  constructor
  · rw [gainAvg, rollingMean_get w _ (w - 1) (hlg ▸ hi1), if_pos hwle, hidx,
      List.drop_zero, seriesDiff_map_gainPart, htake, List.sum_cons]
    simp [List.map_take]
  · rw [lossAvg, rollingMean_get w _ (w - 1) (hll ▸ hi1), if_pos hwle, hidx,
      List.drop_zero, seriesDiff_map_lossPart, htake, List.sum_cons]
    simp [List.map_take]

/-- Witness for C10: window 2 over the two-bar series [1, 3] — the first
defined gain average is (0 + 2)/2, one true delta plus the fabricated
zero. -/
theorem C10_nan_delta_coerced_to_zero_witness :
    (gainAvg 2 [1, 3]).get? (2 - 1) =
      some (some ((0 + (((trueDeltas [1, 3]).take (2 - 1)).map
        specGainPart).sum) / 2)) :=
  (C10_nan_delta_coerced_to_zero 2 (by norm_num) [1, 3] (by norm_num)).2.1
